import Mathlib

/-!
Shallow embedding of the conversion-job scheduler of SonifyLab (src/SonifyLab.py).

The embedding covers the core the specification describes:
  - the timestamp parser ConversionProcess.ffmpeg_time_to_seconds,
  - the streaming telemetry parser ConversionProcess.parse_progress,
  - the duration probe ConversionProcess.get_duration,
  - the per-job exit handler ConversionProcess.process_finished,
  - the session scheduler MainWindow.start_conversion, start_next_processes,
    process_finished and stop_conversion.

Text is modelled as lists of characters; Python string helpers (split,
startswith, strip) are re-implemented structurally so that the kernel can
evaluate them.  Python numbers are modelled as Nat / Int / Rat: the float
arithmetic of the source is carried out exactly over the rationals.
Signal emissions are modelled as values of an event type, and the Qt event
loop as an explicit transition system over the window state.
-/

/-- Python str.split(sep) for a one-character separator: splits at every
occurrence, keeping empty pieces, so the result list is never empty. -/
def pySplit (sep : Char) : List Char → List (List Char)
  | [] => [[]]
  | c :: rest =>
    match pySplit sep rest with
    | [] => [[]]
    | w :: ws => if c = sep then [] :: w :: ws else (c :: w) :: ws

/-- Python (sep in s) for a one-character separator. -/
def containsChar (c : Char) : List Char → Bool
  | [] => false
  | b :: bs => if b = c then true else containsChar c bs

/-- Python str.startswith for the literal markers of the telemetry lines. -/
def startsWithL : List Char → List Char → Bool
  | [], _ => true
  | _ :: _, [] => false
  | p :: ps, c :: cs => if c = p then startsWithL ps cs else false

/-- Numeric value of a list of decimal digits. -/
def digitsVal (l : List Char) : Nat := l.foldl (fun a c => a * 10 + (c.toNat - 48)) 0

/-- A nonempty all-digit character list. -/
def isDigits (l : List Char) : Bool := !l.isEmpty && l.all Char.isDigit

/-- Decimal digit strings accepted as a Nat, none otherwise. -/
def digitsToNat? (l : List Char) : Option Nat :=
  if isDigits l then some (digitsVal l) else none

/-- Python int(s), modelled for an optional sign followed by decimal digits
(the shapes ffmpeg emits; surrounding whitespace and digit-group underscores
that Python also tolerates are not modelled).  none models the ValueError. -/
def pyInt? (l : List Char) : Option Int :=
  match l with
  | [] => none
  | c :: rest =>
    if c = '-' then (digitsToNat? rest).map (fun n => -(n : Int))
    else if c = '+' then (digitsToNat? rest).map (fun n => (n : Int))
    else (digitsToNat? (c :: rest)).map (fun n => (n : Int))

/-- Python float("0." ++ l), modelled for l a possibly empty digit string
(exponent forms are not modelled).  none models the ValueError. -/
def pyFrac? (l : List Char) : Option ℚ :=
  if l.all Char.isDigit then some ((digitsVal l : ℚ) / 10 ^ l.length) else none

/-- ConversionProcess.ffmpeg_time_to_seconds, on the character list of the
timestamp.  Mirrors the source: when the string holds a dot it must split
into exactly two pieces (any other shape raises ValueError, caught to 0) and
the fractional piece goes through float("0." ++ ms); the clock piece must
split on the colon into exactly three pieces, each fed to int(); the result
is h * 3600 + m * 60 + s + ms, and every caught ValueError yields 0. -/
def ffmpeg_time_to_seconds_list (timeStr : List Char) : ℚ :=
  let hmsms : Option (List Char × ℚ) :=
    if containsChar '.' timeStr then
      match pySplit '.' timeStr with
      | [hms, ms] =>
        match pyFrac? ms with
        | some f => some (hms, f)
        | none => none
      | _ => none
    else some (timeStr, 0)
  match hmsms with
  | none => 0
  | some (hms, ms) =>
    match pySplit ':' hms with
    | [hh, mm, ss] =>
      match pyInt? hh, pyInt? mm, pyInt? ss with
      | some h, some m, some s => ((h * 3600 + m * 60 + s : Int) : ℚ) + ms
      | _, _, _ => 0
    | _ => 0

/-- ConversionProcess.ffmpeg_time_to_seconds on a string. -/
def ffmpeg_time_to_seconds (timeStr : String) : ℚ :=
  ffmpeg_time_to_seconds_list timeStr.data

/-- The events the core emits.  statusChanged / progressChanged / infoChanged /
errorOccurred / jobFinished are the per-job signals (status_update,
progress_update, info_update, error_occurred, finished); speedInfo stands for
the info_update carrying the formatted speed and remaining time (the display
formatting of the two numbers is elided); overallProgress is the overall
progress-bar update, batchFinished the terminal message box reporting success
or the failed files, stoppedNotice the stop message box. -/
inductive SEvent where
  | statusChanged (index : Nat) (label : String)
  | progressChanged (index : Nat) (percent : ℚ)
  | speedInfo (index : Nat) (speed remaining : ℚ)
  | infoChanged (index : Nat) (text : String)
  | errorOccurred (index : Nat) (message : String)
  | jobFinished (index : Nat) (code : Int)
  | overallProgress (percent : Nat)
  | batchFinished (success : Bool) (failed : List Nat)
  | stoppedNotice
  deriving DecidableEq

/-- ConversionProcess.parse_progress on one telemetry line, on the character
list of the line.  duration is self.duration, index self.index, and
wallElapsed the wall-clock seconds since start() (datetime.now() minus
self.start_time) at the moment the line is handled.  The emitted events are
returned in emission order.  Note that the source applies no clamping to the
computed percentage. -/
def parse_progress_list (duration : ℚ) (index : Nat) (wallElapsed : ℚ)
    (line : List Char) : List SEvent :=
  if startsWithL ( "out_time=".data) line then
    let outTimeStr :=
      match pySplit '=' line with
      | _ :: v :: _ => v
      | _ => []
    let outTime := ffmpeg_time_to_seconds_list outTimeStr
    if 0 < duration then
      let progress := outTime / duration * 100
      let speed := if 0 < wallElapsed then outTime / wallElapsed else 0
      let remaining := if 0 < speed then (duration - outTime) / speed else 0
      [SEvent.progressChanged index progress, SEvent.speedInfo index speed remaining]
    else []
  else if startsWithL ( "progress=".data) line then
    if (match pySplit '=' line with
        | _ :: v :: _ => v
        | _ => []) = ( "end".data) then
      [SEvent.progressChanged index 100, SEvent.infoChanged index "Conversión completada"]
    else []
  else []

/-- ConversionProcess.parse_progress on a string line. -/
def parse_progress (duration : ℚ) (index : Nat) (wallElapsed : ℚ)
    (line : String) : List SEvent :=
  parse_progress_list duration index wallElapsed line.data

/-- Python str.strip(). -/
def pyStrip (l : List Char) : List Char :=
  ((l.dropWhile Char.isWhitespace).reverse.dropWhile Char.isWhitespace).reverse

/-- The unsigned part of the Python float(s) model: integer digits with an
optional fractional part. -/
def pyFloatMag (m : List Char) : Option ℚ :=
  match pySplit '.' m with
  | [ip] => (digitsToNat? ip).map (fun n => (n : ℚ))
  | [ip, fp] =>
    if (ip.all Char.isDigit && fp.all Char.isDigit) && (!ip.isEmpty || !fp.isEmpty) then
      some ((digitsVal ip : ℚ) + (digitsVal fp : ℚ) / 10 ^ fp.length)
    else none
  | _ => none

/-- Python float(s), modelled for an optional sign, integer digits and an
optional fractional part (the shapes ffprobe prints for a duration; exponent,
inf and nan forms are not modelled).  none models the ValueError. -/
def pyFloat? (l : List Char) : Option ℚ :=
  match l with
  | [] => none
  | c :: rest =>
    if c = '-' then (pyFloatMag rest).map (fun q => -q)
    else if c = '+' then pyFloatMag rest
    else pyFloatMag (c :: rest)

/-- ConversionProcess.get_duration.  The external ffprobe invocation is
abstracted as its outcome: none when subprocess.run itself raises (ffprobe
missing), some out for a run that produced the text out on stdout (an
ffprobe failure prints nothing, so out is then empty).  The source parses
float(result.stdout.strip()) and maps every caught exception to 0. -/
def get_duration (probe : Option String) : ℚ :=
  match probe with
  | none => 0
  | some out =>
    match pyFloat? (pyStrip out.data) with
    | some d => d
    | none => 0

/-- ConversionProcess.process_finished: the per-job signals emitted when the
encoder process exits with return code code, in emission order.  stderrText
is whatever readAllStandardError() returns at that moment (the constructor
sets MergedChannels, which routes stderr into the merged output, so in a real
run this buffer is empty). -/
def process_finished_events (index : Nat) (code : Int) (stderrText : String) :
    List SEvent :=
  if code = 0 then
    [SEvent.statusChanged index "Completado",
     SEvent.progressChanged index 100,
     SEvent.jobFinished index code]
  else
    [SEvent.statusChanged index "Error",
     SEvent.errorOccurred index stderrText,
     SEvent.jobFinished index code]

/-- self.max_concurrent_processes = max(1, os.cpu_count() - 1), as a function
of the cpu count. -/
def max_concurrent (cpu : Nat) : Nat := max 1 (cpu - 1)

/-- The scheduler-relevant state of MainWindow during one run.  Jobs are the
indices into self.files.  pending_finish models the Qt layer: the indices of
started QProcesses whose finished signal has not yet been delivered — a
started process delivers finished exactly once, also when it is killed
(QProcess.kill terminates the child and finished fires when it dies).
reports is the chronological log of every emitted event. -/
structure MainWindowState where
  total_files : Nat
  completed_files : Nat
  failed_files : List Nat
  active_processes : List Nat
  conversion_queue : List Nat
  max_concurrent_processes : Nat
  is_converting : Bool
  pending_finish : List Nat
  reports : List SEvent
  deriving DecidableEq

/-- MainWindow.start_next_processes: while the active list is below the
concurrency limit and the queue is nonempty, pop the head of the queue and
append it to the active list.  Returns (new active list, new queue, the jobs
started by this call in start order). -/
def start_next_processes (limit : Nat) : List Nat → List Nat → List Nat × List Nat × List Nat
  | active, [] => (active, [], [])
  | active, j :: rest =>
    if active.length < limit then
      let r := start_next_processes limit (active ++ [j]) rest
      (r.1, r.2.1, j :: r.2.2)
    else (active, j :: rest, [])

/-- The admission step as the session runs it: start_next_processes on the
state, the started jobs entering the pending Qt layer, and each start()
emitting the running status. -/
def admit_next (s : MainWindowState) : MainWindowState :=
  let r := start_next_processes s.max_concurrent_processes s.active_processes s.conversion_queue
  { s with
    active_processes := r.1
    conversion_queue := r.2.1
    pending_finish := s.pending_finish ++ r.2.2
    reports := s.reports ++ (r.2.2).map (fun j => SEvent.statusChanged j "En proceso") }

/-- The enumerate(self.files) loop of MainWindow.start_conversion.  skips
lists, per file index, whether os.path.exists(output_file) held with the
overwrite box unchecked: such a file is marked Omitido with progress 100 and
is never enqueued; every other file is appended to the conversion queue. -/
def enqueue_jobs (s : MainWindowState) : Nat → List Bool → MainWindowState
  | _, [] => s
  | i, skip :: rest =>
    if skip then
      enqueue_jobs
        { s with reports := s.reports ++
            [SEvent.statusChanged i "Omitido", SEvent.progressChanged i 100] }
        (i + 1) rest
    else
      enqueue_jobs { s with conversion_queue := s.conversion_queue ++ [i] } (i + 1) rest

/-- The state right after the reset block of MainWindow.start_conversion:
counters cleared, total_files set to the file count, empty queue and active
list, conversion running. -/
def initial_state (limit total : Nat) : MainWindowState :=
  { total_files := total
    completed_files := 0
    failed_files := []
    active_processes := []
    conversion_queue := []
    max_concurrent_processes := limit
    is_converting := true
    pending_finish := []
    reports := [] }

/-- MainWindow.start_conversion for one run: counters reset, total_files set
to the file count, the skip-or-enqueue loop, then the first admission. -/
def start_conversion (limit : Nat) (skips : List Bool) : MainWindowState :=
  admit_next (enqueue_jobs (initial_state limit skips.length) 0 skips)

/-- The remove-then-break loop of MainWindow.process_finished: drop the first
active entry with the given index. -/
def removeFirst (i : Nat) : List Nat → List Nat
  | [] => []
  | j :: rest => if j = i then rest else j :: removeFirst i rest

/-- Delivery of one QProcess finished signal: ConversionProcess.process_finished
emits its per-job signals (with the nonzero-exit error routed through
MainWindow.handle_error, which appends the file to failed_files), then the
MainWindow.process_finished slot runs: completed_files increments, the overall
progress bar updates to int(completed / total * 100), the process leaves the
active list, start_next_processes admits from the queue, and only when the
completed count equals the total does the terminal branch run: conversion ends
and the batch report (success, or the failed-file list) is emitted.  The slot
has no is_converting guard, so it runs the same way for a signal delivered
after stop_conversion. -/
def process_finished (s : MainWindowState) (index : Nat) (code : Int) :
    MainWindowState :=
  let completed := s.completed_files + 1
  let failed := if code = 0 then s.failed_files else s.failed_files ++ [index]
  let r := start_next_processes s.max_concurrent_processes
    (removeFirst index s.active_processes) s.conversion_queue
  let s1 : MainWindowState :=
    { s with
      completed_files := completed
      failed_files := failed
      active_processes := r.1
      conversion_queue := r.2.1
      pending_finish := removeFirst index s.pending_finish ++ r.2.2
      reports := s.reports
        ++ process_finished_events index code ""
        ++ [SEvent.overallProgress (completed * 100 / s.total_files)]
        ++ (r.2.2).map (fun j => SEvent.statusChanged j "En proceso") }
  if completed = s.total_files then
    { s1 with
      is_converting := false
      reports := s1.reports ++ [SEvent.batchFinished failed.isEmpty failed] }
  else s1

/-- MainWindow.stop_conversion: kill every active process (each killed child
still delivers its pending finished signal later, so pending_finish is
unchanged), clear the queue, end the converting state and show the stopped
notice.  Nothing here disconnects the finished signals or empties the active
list. -/
def stop_conversion (s : MainWindowState) : MainWindowState :=
  { s with
    conversion_queue := []
    is_converting := false
    reports := s.reports ++ [SEvent.stoppedNotice] }

/-- The events the coordinating loop can deliver to the window. -/
inductive Act where
  | finish (index : Nat) (code : Int)
  | stop

/-- The state after one delivered event. -/
def applyAct (s : MainWindowState) : Act → MainWindowState
  | Act.finish i c => process_finished s i c
  | Act.stop => stop_conversion s

/-- When an event can occur: a finished signal only for a started process
that has not delivered it yet; the stop button at any time. -/
def StepOK (s : MainWindowState) : Act → Prop
  | Act.finish i _ => i ∈ s.pending_finish
  | Act.stop => True

/-- The states a run can be in: the state right after start_conversion for
some cpu count and skip pattern, closed under delivered events. -/
inductive Reachable : MainWindowState → Prop
  | init (cpu : Nat) (skips : List Bool) :
      Reachable (start_conversion (max_concurrent cpu) skips)
  | step {s : MainWindowState} {a : Act} :
      Reachable s → StepOK s a → Reachable (applyAct s a)

/-- All states an already reached state can still evolve to. -/
inductive ReachFrom : MainWindowState → MainWindowState → Prop
  | refl (s : MainWindowState) : ReachFrom s s
  | step {s t : MainWindowState} {a : Act} :
      ReachFrom s t → StepOK t a → ReachFrom s (applyAct t a)

/-- Whether an event is the terminal batch report. -/
def isBatchReport : SEvent → Bool
  | SEvent.batchFinished _ _ => true
  | _ => false

/-- Whether the terminal batch report occurs in an event log. -/
def hasBatchReport (evs : List SEvent) : Bool := evs.any isBatchReport

/-- The run can never again emit the terminal batch report. -/
def noFutureBatchReport (s : MainWindowState) : Prop :=
  ∀ t, ReachFrom s t → hasBatchReport t.reports = false

/-- The progressChanged percentages of an event list, in order. -/
def progressValues (evs : List SEvent) : List ℚ :=
  evs.filterMap (fun e =>
    match e with
    | SEvent.progressChanged _ p => some p
    | _ => none)

/-- Modelled from the wording of the specification and claims, not from the
source: the clock part H:MM:SS of a well-formed timestamp, every component a
nonempty string of decimal digits. -/
def wellFormedClock (l : List Char) : Bool :=
  match pySplit ':' l with
  | [hh, mm, ss] => isDigits hh && isDigits mm && isDigits ss
  | _ => false

/-- Modelled from the wording of the specification and claims, not from the
source: a well-formed timestamp is H:MM:SS with an optional fractional part
.f of decimal digits.  Used only to state which strings the claims count as
malformed. -/
def wellFormedTimestamp (s : String) : Bool :=
  match pySplit '.' s.data with
  | [hms] => wellFormedClock hms
  | [hms, fs] => wellFormedClock hms && fs.all Char.isDigit
  | _ => false

/-- The run that exercises the skip path: two files on a machine with two
cpus, the first file with an existing output and the overwrite box unchecked
(so it is marked Omitido and never submitted), the second enqueued and
admitted. -/
def skip_run_start : MainWindowState := start_conversion (max_concurrent 2) [true, false]

/-- skip_run_start after the only submitted job finishes with exit code 0:
every submitted job is then terminal and no further finished signal is
pending. -/
def skip_run_final : MainWindowState := process_finished skip_run_start 1 0

/-- The run that exercises the stop path: two files on a machine with three
cpus (concurrency limit 2), both admitted immediately, none queued. -/
def stop_run_start : MainWindowState := start_conversion (max_concurrent 3) [false, false]

/-- stop_run_start right after stop_conversion: both killed children still
owe their finished signal. -/
def stop_run_stopped : MainWindowState := stop_conversion stop_run_start

/-- stop_run_stopped after the two kill-induced finished signals (exit code 9)
are delivered and handled by the unguarded process_finished slot. -/
def stop_run_final : MainWindowState :=
  process_finished (process_finished stop_run_stopped 0 9) 1 9

/-! ## Helper lemmas on the text-level functions -/

/-- Membership of a character distributes over list append. -/
theorem containsChar_append (c : Char) (l r : List Char) :
    containsChar c (l ++ r) = (containsChar c l || containsChar c r) := by
  induction l with
  | nil => simp [containsChar]
  | cons b bs ih =>
    by_cases h : b = c <;> simp [containsChar, h, ih]

/-- An all-digit string holds no non-digit character. -/
theorem all_digits_not_contains {l : List Char} {c : Char}
    (hl : l.all Char.isDigit = true) (hc : c.isDigit = false) :
    containsChar c l = false := by
  induction l with
  | nil => rfl
  | cons b bs ih =>
    simp only [List.all_cons, Bool.and_eq_true] at hl
    have hb : b ≠ c := by
      intro h
      rw [h] at hl
      rw [hc] at hl
      exact absurd hl.1 (by simp)
    simp [containsChar, hb, ih hl.2]

/-- Splitting on an absent separator returns the whole string. -/
theorem pySplit_no_sep {c : Char} {l : List Char} (h : containsChar c l = false) :
    pySplit c l = [l] := by
  induction l with
  | nil => rfl
  | cons b bs ih =>
    simp only [containsChar] at h
    by_cases hb : b = c
    · rw [if_pos hb] at h
      exact absurd h (by simp)
    · rw [if_neg hb] at h
      simp [pySplit, ih h, hb]

/-- Splitting at the first separator peels off the prefix before it. -/
theorem pySplit_sep_append {c : Char} {l : List Char} (r : List Char)
    (h : containsChar c l = false) :
    pySplit c (l ++ c :: r) = l :: pySplit c r := by
  induction l with
  | nil =>
    simp only [List.nil_append, pySplit]
    match hr : pySplit c r with
    | [] => rfl
    | w :: ws => simp
  | cons b bs ih =>
    simp only [containsChar] at h
    by_cases hb : b = c
    · rw [if_pos hb] at h
      exact absurd h (by simp)
    · rw [if_neg hb] at h
      simp only [List.cons_append, pySplit, List.append_eq]
      rw [ih h]
      simp [hb]

/-- Every list starts with its own prefix. -/
theorem startsWithL_append (p r : List Char) : startsWithL p (p ++ r) = true := by
  induction p with
  | nil => rfl
  | cons b bs ih => simp [startsWithL, ih]

/-- isDigits gives the all-digit part. -/
theorem all_of_isDigits {l : List Char} (h : isDigits l = true) :
    l.all Char.isDigit = true := by
  simp only [isDigits, Bool.and_eq_true] at h
  exact h.2

/-- Python int() on a digit string returns its value. -/
theorem pyInt?_digits {l : List Char} (h : isDigits l = true) :
    pyInt? l = some ((digitsVal l : Int)) := by
  match l with
  | [] => simp [isDigits] at h
  | c :: rest =>
    have hc : c.isDigit = true := by
      simp only [isDigits, List.all_cons, Bool.and_eq_true] at h
      exact h.2.1
    have h1 : c ≠ '-' := by intro he; rw [he] at hc; exact absurd hc (by decide)
    have h2 : c ≠ '+' := by intro he; rw [he] at hc; exact absurd hc (by decide)
    simp [pyInt?, h1, h2, digitsToNat?, h]

/-- Python int() on a minus sign and a digit string returns the negated value. -/
theorem pyInt?_neg_digits {l : List Char} (h : isDigits l = true) :
    pyInt? ('-' :: l) = some (-(digitsVal l : Int)) := by
  simp [pyInt?, digitsToNat?, h]

/-- Python float(0.f) on a digit string f. -/
theorem pyFrac?_digits {l : List Char} (h : l.all Char.isDigit = true) :
    pyFrac? l = some ((digitsVal l : ℚ) / 10 ^ l.length) := by
  simp [pyFrac?, h]

/-! ## Helper lemmas on the timestamp parser -/

/-- The value of a plain digit timestamp H:MM:SS. -/
theorem ffmpeg_time_no_dot {hs ms ss : List Char}
    (h1 : isDigits hs = true) (h2 : isDigits ms = true) (h3 : isDigits ss = true) :
    ffmpeg_time_to_seconds_list (hs ++ ':' :: (ms ++ ':' :: ss)) =
      (digitsVal hs : ℚ) * 3600 + (digitsVal ms : ℚ) * 60 + (digitsVal ss : ℚ) := by
  have d1 : containsChar '.' hs = false :=
    all_digits_not_contains (all_of_isDigits h1) (by decide)
  have d2 : containsChar '.' ms = false :=
    all_digits_not_contains (all_of_isDigits h2) (by decide)
  have d3 : containsChar '.' ss = false :=
    all_digits_not_contains (all_of_isDigits h3) (by decide)
  have n1 : containsChar ':' hs = false :=
    all_digits_not_contains (all_of_isDigits h1) (by decide)
  have n2 : containsChar ':' ms = false :=
    all_digits_not_contains (all_of_isDigits h2) (by decide)
  have n3 : containsChar ':' ss = false :=
    all_digits_not_contains (all_of_isDigits h3) (by decide)
  have hdot : containsChar '.' (hs ++ ':' :: (ms ++ ':' :: ss)) = false := by
    simp [containsChar_append, containsChar, d1, d2, d3]
  have hsplit : pySplit ':' (hs ++ ':' :: (ms ++ ':' :: ss)) = [hs, ms, ss] := by
    rw [pySplit_sep_append _ n1, pySplit_sep_append _ n2, pySplit_no_sep n3]
  simp only [ffmpeg_time_to_seconds_list, hdot, Bool.false_eq_true, if_false, hsplit,
    pyInt?_digits h1, pyInt?_digits h2, pyInt?_digits h3]
  push_cast
  ring

/-- The value of a digit timestamp H:MM:SS.f with fractional digits. -/
theorem ffmpeg_time_dot {hs ms ss fs : List Char}
    (h1 : isDigits hs = true) (h2 : isDigits ms = true) (h3 : isDigits ss = true)
    (h4 : fs.all Char.isDigit = true) :
    ffmpeg_time_to_seconds_list (hs ++ ':' :: (ms ++ ':' :: (ss ++ '.' :: fs))) =
      (digitsVal hs : ℚ) * 3600 + (digitsVal ms : ℚ) * 60 + (digitsVal ss : ℚ)
        + (digitsVal fs : ℚ) / 10 ^ fs.length := by
  have d1 : containsChar '.' hs = false :=
    all_digits_not_contains (all_of_isDigits h1) (by decide)
  have d2 : containsChar '.' ms = false :=
    all_digits_not_contains (all_of_isDigits h2) (by decide)
  have d3 : containsChar '.' ss = false :=
    all_digits_not_contains (all_of_isDigits h3) (by decide)
  have d4 : containsChar '.' fs = false :=
    all_digits_not_contains h4 (by decide)
  have n1 : containsChar ':' hs = false :=
    all_digits_not_contains (all_of_isDigits h1) (by decide)
  have n2 : containsChar ':' ms = false :=
    all_digits_not_contains (all_of_isDigits h2) (by decide)
  have n3 : containsChar ':' ss = false :=
    all_digits_not_contains (all_of_isDigits h3) (by decide)
  have hassoc : hs ++ ':' :: (ms ++ ':' :: (ss ++ '.' :: fs)) =
      (hs ++ ':' :: (ms ++ ':' :: ss)) ++ ('.' :: fs) := by
    simp [List.append_assoc]
  have hnod : containsChar '.' (hs ++ ':' :: (ms ++ ':' :: ss)) = false := by
    simp [containsChar_append, containsChar, d1, d2, d3]
  have hdot : containsChar '.' ((hs ++ ':' :: (ms ++ ':' :: ss)) ++ ('.' :: fs)) = true := by
    simp [containsChar_append, containsChar]
  have hsplitdot : pySplit '.' ((hs ++ ':' :: (ms ++ ':' :: ss)) ++ ('.' :: fs)) =
      [hs ++ ':' :: (ms ++ ':' :: ss), fs] := by
    rw [pySplit_sep_append _ hnod, pySplit_no_sep d4]
  have hsplit : pySplit ':' (hs ++ ':' :: (ms ++ ':' :: ss)) = [hs, ms, ss] := by
    rw [pySplit_sep_append _ n1, pySplit_sep_append _ n2, pySplit_no_sep n3]
  rw [hassoc]
  simp only [ffmpeg_time_to_seconds_list, hdot, if_true, hsplitdot, pyFrac?_digits h4, hsplit,
    pyInt?_digits h1, pyInt?_digits h2, pyInt?_digits h3]
  push_cast
  ring

/-- A signed hour component parses too: int() accepts the sign, so the value
is the signed sum. -/
theorem ffmpeg_time_signed_hour {hs ms ss : List Char}
    (h1 : isDigits hs = true) (h2 : isDigits ms = true) (h3 : isDigits ss = true) :
    ffmpeg_time_to_seconds_list (('-' :: hs) ++ ':' :: (ms ++ ':' :: ss)) =
      -((digitsVal hs : ℚ) * 3600) + (digitsVal ms : ℚ) * 60 + (digitsVal ss : ℚ) := by
  have d1 : containsChar '.' hs = false :=
    all_digits_not_contains (all_of_isDigits h1) (by decide)
  have d2 : containsChar '.' ms = false :=
    all_digits_not_contains (all_of_isDigits h2) (by decide)
  have d3 : containsChar '.' ss = false :=
    all_digits_not_contains (all_of_isDigits h3) (by decide)
  have n1 : containsChar ':' hs = false :=
    all_digits_not_contains (all_of_isDigits h1) (by decide)
  have n2 : containsChar ':' ms = false :=
    all_digits_not_contains (all_of_isDigits h2) (by decide)
  have n3 : containsChar ':' ss = false :=
    all_digits_not_contains (all_of_isDigits h3) (by decide)
  have hdot : containsChar '.' (('-' :: hs) ++ ':' :: (ms ++ ':' :: ss)) = false := by
    simp [containsChar_append, containsChar, d1, d2, d3]
  have hnc : containsChar ':' ('-' :: hs) = false := by
    simp [containsChar, n1]
  have hsplit : pySplit ':' (('-' :: hs) ++ ':' :: (ms ++ ':' :: ss)) = ['-' :: hs, ms, ss] := by
    rw [pySplit_sep_append _ hnc, pySplit_sep_append _ n2, pySplit_no_sep n3]
  simp only [ffmpeg_time_to_seconds_list, hdot, Bool.false_eq_true, if_false, hsplit,
    pyInt?_neg_digits h1, pyInt?_digits h2, pyInt?_digits h3]
  push_cast
  ring

/-- A clock with only two components unpacks into three names in the source
and raises ValueError there, so the function returns 0. -/
theorem ffmpeg_time_two_components {hs ss : List Char}
    (h1 : isDigits hs = true) (h3 : isDigits ss = true) :
    ffmpeg_time_to_seconds_list (hs ++ ':' :: ss) = 0 := by
  have d1 : containsChar '.' hs = false :=
    all_digits_not_contains (all_of_isDigits h1) (by decide)
  have d3 : containsChar '.' ss = false :=
    all_digits_not_contains (all_of_isDigits h3) (by decide)
  have n1 : containsChar ':' hs = false :=
    all_digits_not_contains (all_of_isDigits h1) (by decide)
  have n3 : containsChar ':' ss = false :=
    all_digits_not_contains (all_of_isDigits h3) (by decide)
  have hdot : containsChar '.' (hs ++ ':' :: ss) = false := by
    simp [containsChar_append, containsChar, d1, d3]
  have hsplit : pySplit ':' (hs ++ ':' :: ss) = [hs, ss] := by
    rw [pySplit_sep_append _ n1, pySplit_no_sep n3]
  simp only [ffmpeg_time_to_seconds_list, hdot, Bool.false_eq_true, if_false, hsplit]

/-! ## Helper lemmas on the line parser -/

/-- line.split('=')[1] of an out_time line is the timestamp text. -/
theorem split_out_time_line {t : List Char} (ht : containsChar '=' t = false) :
    pySplit '=' ( "out_time=".data ++ t) = [ "out_time".data, t] := by
  have he : ( "out_time=".data ++ t) = ( "out_time".data ++ '=' :: t) := rfl
  rw [he, pySplit_sep_append _ (by decide), pySplit_no_sep ht]

/-- With a known positive duration, an out_time line emits exactly one
progress event, valued elapsed over duration times 100, unclamped. -/
theorem parse_out_time_progress (d : ℚ) (idx : Nat) (w : ℚ) {t : List Char}
    (ht : containsChar '=' t = false) (hd : 0 < d) :
    progressValues (parse_progress_list d idx w ( "out_time=".data ++ t)) =
      [ffmpeg_time_to_seconds_list t / d * 100] := by
  have hpre : startsWithL ( "out_time=".data) ( "out_time=".data ++ t) = true :=
    startsWithL_append _ _
  simp only [parse_progress_list, hpre, if_true, split_out_time_line ht, hd, progressValues,
    List.filterMap]

/-- With no known duration, an out_time line emits nothing at all. -/
theorem parse_out_time_zero_duration (d : ℚ) (idx : Nat) (w : ℚ) {t : List Char}
    (hd : ¬ 0 < d) :
    parse_progress_list d idx w ( "out_time=".data ++ t) = [] := by
  have hpre : startsWithL ( "out_time=".data) ( "out_time=".data ++ t) = true :=
    startsWithL_append _ _
  simp only [parse_progress_list, hpre, if_true]
  rw [if_neg hd]

/-! ## Helper lemmas on the scheduler and the session -/

/-- Closed form of the admission loop: it moves exactly the first
limit-minus-active jobs of the queue to the end of the active list, in queue
order. -/
theorem start_next_processes_take_drop (limit : Nat) (queue : List Nat) :
    ∀ active : List Nat,
      start_next_processes limit active queue =
        (active ++ queue.take (limit - active.length),
         queue.drop (limit - active.length),
         queue.take (limit - active.length)) := by
  induction queue with
  | nil => intro active; simp [start_next_processes]
  | cons j rest ih =>
    intro active
    by_cases h : active.length < limit
    · have hsub : limit - active.length = (limit - (active.length + 1)) + 1 := by omega
      simp only [start_next_processes, if_pos h, ih (active ++ [j]), List.length_append,
        List.length_cons, List.length_nil]
      rw [hsub]
      simp [List.take_succ_cons, List.drop_succ_cons, List.append_assoc]
    · have hsub : limit - active.length = 0 := by omega
      simp [start_next_processes, if_neg h, hsub]

/-- Admission never pushes the active list past the limit. -/
theorem start_next_length_le {limit : Nat} {active : List Nat} (queue : List Nat)
    (h : active.length ≤ limit) :
    (start_next_processes limit active queue).1.length ≤ limit := by
  rw [start_next_processes_take_drop]
  simp only [List.length_append, List.length_take]
  omega

/-- Admission keeps every job that was already active. -/
theorem mem_start_next_of_mem_active {a limit : Nat} {active : List Nat} (queue : List Nat)
    (h : a ∈ active) :
    a ∈ (start_next_processes limit active queue).1 := by
  rw [start_next_processes_take_drop]
  exact List.mem_append_left _ h

/-- Removing the finished entry never lengthens the active list. -/
theorem removeFirst_length_le (i : Nat) (l : List Nat) :
    (removeFirst i l).length ≤ l.length := by
  induction l with
  | nil => simp [removeFirst]
  | cons j rest ih =>
    by_cases h : j = i
    · simp [removeFirst, h]
    · simp only [removeFirst, if_neg h, List.length_cons]
      omega

/-- Removing one index keeps every other member. -/
theorem mem_removeFirst_of_ne {a i : Nat} {l : List Nat} (ha : a ∈ l) (hne : a ≠ i) :
    a ∈ removeFirst i l := by
  induction l with
  | nil => simp at ha
  | cons j rest ih =>
    rcases List.mem_cons.mp ha with h1 | h1
    · subst h1
      by_cases h : a = i
      · exact absurd h hne
      · simp [removeFirst, h]
    · by_cases h : j = i
      · simp [removeFirst, h, h1]
      · simp only [removeFirst, if_neg h]
        exact List.mem_cons_of_mem _ (ih h1)

/-- The skip-or-enqueue loop touches neither the active list, the limit nor
the pending layer. -/
theorem enqueue_jobs_active : ∀ (skips : List Bool) (s : MainWindowState) (i : Nat),
    (enqueue_jobs s i skips).active_processes = s.active_processes ∧
    (enqueue_jobs s i skips).max_concurrent_processes = s.max_concurrent_processes ∧
    (enqueue_jobs s i skips).pending_finish = s.pending_finish := by
  intro skips
  induction skips with
  | nil => intro s i; exact ⟨rfl, rfl, rfl⟩
  | cons b bs ih =>
    intro s i
    cases b <;> simp only [enqueue_jobs, if_true, if_false, Bool.false_eq_true] <;> exact ih _ _

/-- The active list after one finished delivery: the finished entry removed,
then the admission loop. -/
theorem process_finished_active (s : MainWindowState) (i : Nat) (c : Int) :
    (process_finished s i c).active_processes =
      (start_next_processes s.max_concurrent_processes
        (removeFirst i s.active_processes) s.conversion_queue).1 := by
  simp only [process_finished]
  split <;> rfl

/-- A finished delivery leaves the concurrency limit unchanged. -/
theorem process_finished_max (s : MainWindowState) (i : Nat) (c : Int) :
    (process_finished s i c).max_concurrent_processes = s.max_concurrent_processes := by
  simp only [process_finished]
  split <;> rfl

/-- Stopping adds only the stopped notice, never a batch report. -/
theorem stop_preserves_no_report {s : MainWindowState}
    (hb : hasBatchReport s.reports = false) :
    hasBatchReport (stop_conversion s).reports = false := by
  simp [stop_conversion, hasBatchReport, List.any_append, isBatchReport] at hb ⊢
  exact hb

/-- From a state with no pending finished signal and no batch report yet, no
future state ever emits the batch report: the only enabled step is stop,
which emits none. -/
theorem no_report_stable {s t : MainWindowState} (h : ReachFrom s t)
    (hp : s.pending_finish = []) (hb : hasBatchReport s.reports = false) :
    t.pending_finish = [] ∧ hasBatchReport t.reports = false := by
  induction h with
  | refl => exact ⟨hp, hb⟩
  | step hr hok ih =>
    obtain ⟨hp2, hb2⟩ := ih
    rename_i t' a
    cases a with
    | finish i c =>
      simp only [StepOK] at hok
      rw [hp2] at hok
      exact absurd hok (List.not_mem_nil i)
    | stop =>
      exact ⟨hp2, stop_preserves_no_report hb2⟩

/-- Admission preserves the concurrency bound at the session level. -/
theorem admit_next_active_le {s : MainWindowState}
    (h : s.active_processes.length ≤ s.max_concurrent_processes) :
    (admit_next s).active_processes.length ≤ (admit_next s).max_concurrent_processes :=
  start_next_length_le _ h

/-! ## Concrete evaluations used by the claims about negative timestamps -/

/-- The source value of the signed timestamp -1:00:00. -/
theorem neg_one_hour_value : ffmpeg_time_to_seconds "-1:00:00" = -3600 := by
  show ffmpeg_time_to_seconds_list
    (('-' :: "1".data) ++ ':' :: ( "00".data ++ ':' :: "00".data)) = -3600
  rw [ffmpeg_time_signed_hour (by decide) (by decide) (by decide)]
  norm_num [show digitsVal ( "1".data) = 1 from by decide,
    show digitsVal ( "00".data) = 0 from by decide]

/-- The progress event emitted for out_time=-1:00:00 at duration 3600. -/
theorem neg_progress_value :
    progressValues (parse_progress 3600 0 1 "out_time=-1:00:00") = [-100] := by
  show progressValues
    (parse_progress_list 3600 0 1 ( "out_time=".data ++ "-1:00:00".data)) = [-100]
  rw [parse_out_time_progress 3600 0 1 (by decide) (by decide)]
  have hv : ffmpeg_time_to_seconds_list ( "-1:00:00".data) = -3600 := neg_one_hour_value
  rw [hv]
  norm_num

/-- Python float() on the string the duration probe reads for a 12.5 second
file. -/
theorem pyFloatMag_digits_dot {ip fp : List Char}
    (hip : ip.all Char.isDigit = true) (hfp : fp.all Char.isDigit = true)
    (hne : ip.isEmpty = false) :
    pyFloatMag (ip ++ '.' :: fp) =
      some ((digitsVal ip : ℚ) + (digitsVal fp : ℚ) / 10 ^ fp.length) := by
  have hsplit : pySplit '.' (ip ++ '.' :: fp) = [ip, fp] := by
    rw [pySplit_sep_append _ (all_digits_not_contains hip (by decide)),
        pySplit_no_sep (all_digits_not_contains hfp (by decide))]
  simp [pyFloatMag, hsplit, hip, hfp, hne]

/-- Python float() on a digit.digit string. -/
theorem pyFloat?_digits_dot {ip fp : List Char}
    (hip : isDigits ip = true) (hfp : fp.all Char.isDigit = true) :
    pyFloat? (ip ++ '.' :: fp) =
      some ((digitsVal ip : ℚ) + (digitsVal fp : ℚ) / 10 ^ fp.length) := by
  cases ip with
  | nil => simp [isDigits] at hip
  | cons c r =>
    have hall : (c :: r).all Char.isDigit = true := all_of_isDigits hip
    have hc : c.isDigit = true := by
      simp only [List.all_cons, Bool.and_eq_true] at hall
      exact hall.1
    have h1 : c ≠ '-' := by intro he; rw [he] at hc; exact absurd hc (by decide)
    have h2 : c ≠ '+' := by intro he; rw [he] at hc; exact absurd hc (by decide)
    show pyFloat? ((c :: r) ++ '.' :: fp) = _
    simp only [List.cons_append, pyFloat?, if_neg h1, if_neg h2]
    rw [show (c :: (r ++ '.' :: fp)) = ((c :: r) ++ '.' :: fp) from rfl]
    exact pyFloatMag_digits_dot hall hfp rfl

/-! ## The claims -/

/-- C1: the claim says the batch report fires once every submitted job is
terminal, in particular in runs with Skipped jobs.  In the source a skipped
file never increments completed_files while total_files counts it, so in the
two-file run with one skip the only submitted job finishes, every queue and
active list and pending signal is empty, completed_files is 1 of 2, no batch
report has been emitted, and no future state can ever emit one: the run
never reaches its terminal report. -/
theorem skipped_jobs_stall_batch_report :
    skip_run_start.pending_finish = [1] ∧
    skip_run_final.completed_files = 1 ∧
    skip_run_final.total_files = 2 ∧
    skip_run_final.active_processes = [] ∧
    skip_run_final.conversion_queue = [] ∧
    skip_run_final.pending_finish = [] ∧
    hasBatchReport skip_run_final.reports = false ∧
    noFutureBatchReport skip_run_final := by
  refine ⟨by decide, by decide, by decide, by decide, by decide, by decide, by decide, ?_⟩
  intro t h
  exact (no_report_stable h (by decide) (by decide)).2

/-- C2: the claim says that after stop() the batch report is never invoked
and no further events are emitted.  In the source stop_conversion kills the
active processes but neither clears the active list nor disconnects their
finished signals, and process_finished has no is_converting guard: in a run
with both jobs active and none queued, stopping and then delivering the two
kill-induced finished signals drives completed_files to total_files and the
batch report fires (with the killed jobs as failures) after the stop. -/
theorem stop_then_kill_finishes_fire_batch_report :
    stop_run_start.active_processes = [0, 1] ∧
    stop_run_start.conversion_queue = [] ∧
    stop_run_stopped.is_converting = false ∧
    (0 ∈ stop_run_stopped.pending_finish) ∧
    (1 ∈ (process_finished stop_run_stopped 0 9).pending_finish) ∧
    hasBatchReport stop_run_stopped.reports = false ∧
    hasBatchReport stop_run_final.reports = true ∧
    stop_run_final.failed_files = [0, 1] ∧
    stop_run_final.completed_files = stop_run_final.total_files := by
  decide

/-- C3: in every reachable state of a run the active list never outgrows the
concurrency limit max(1, cpu - 1): the bound holds at start_conversion and is
preserved by every finished delivery and by stop. -/
theorem scheduler_concurrency_bounded : ∀ s : MainWindowState, Reachable s →
    s.active_processes.length ≤ s.max_concurrent_processes := by
  intro s h
  induction h with
  | init cpu skips =>
    obtain ⟨ha, hm, -⟩ :=
      enqueue_jobs_active skips (initial_state (max_concurrent cpu) skips.length) 0
    simp only [start_conversion]
    apply admit_next_active_le
    rw [ha, hm]
    simp [initial_state]
  | step hr hok ih =>
    rename_i t' a
    cases a with
    | finish i c =>
      show (process_finished t' i c).active_processes.length ≤
        (process_finished t' i c).max_concurrent_processes
      rw [process_finished_active, process_finished_max]
      exact start_next_length_le _
        (le_trans (removeFirst_length_le i t'.active_processes) ih)
    | stop => exact ih

/-- Witness for C3: the bound evaluated on a concrete reachable run of five
enqueued jobs at limit max(1, 3 - 1) = 2. -/
theorem scheduler_concurrency_bounded_witness :
    Reachable (start_conversion (max_concurrent 3) [false, false, false, false, false]) ∧
    (start_conversion (max_concurrent 3)
        [false, false, false, false, false]).active_processes.length ≤
      (start_conversion (max_concurrent 3)
        [false, false, false, false, false]).max_concurrent_processes :=
  ⟨Reachable.init 3 _,
   scheduler_concurrency_bounded _ (Reachable.init 3 _)⟩

/-- C4: the admission loop in closed form.  The new active list is the old
one with the first limit-minus-active queue entries appended in queue order,
those same entries are started (and only they), and the queue keeps the rest:
admission pops only heads, so two pending jobs are always admitted in enqueue
order (FIFO, no reordering). -/
theorem start_next_processes_admits_fifo : ∀ (limit : Nat) (active queue : List Nat),
    (start_next_processes limit active queue).1 =
      active ++ queue.take (limit - active.length) ∧
    (start_next_processes limit active queue).2.1 =
      queue.drop (limit - active.length) ∧
    (start_next_processes limit active queue).2.2 =
      queue.take (limit - active.length) := by
  intro limit active queue
  rw [start_next_processes_take_drop]
  exact ⟨rfl, rfl, rfl⟩

/-- C5 counterexample: the claim says the emitted percentage is clamped to
the interval from 0 to 100, but for out_time=0:03:20 (200 s) at duration 100
the parser emits exactly 200. -/
theorem out_time_unclamped_counterexample :
    progressValues (parse_progress 100 0 1 "out_time=0:03:20") = [200] ∧
    ¬ ((200 : ℚ) ≤ 100) := by
  refine ⟨?_, by norm_num⟩
  show progressValues
    (parse_progress_list 100 0 1 ( "out_time=".data ++ "0:03:20".data)) = [200]
  rw [parse_out_time_progress 100 0 1 (by decide) (by decide)]
  have hv : ffmpeg_time_to_seconds_list ( "0:03:20".data) = 200 := by
    show ffmpeg_time_to_seconds_list
      ( "0".data ++ ':' :: ( "03".data ++ ':' :: "20".data)) = 200
    rw [ffmpeg_time_no_dot (by decide) (by decide) (by decide)]
    norm_num [show digitsVal ( "0".data) = 0 from by decide,
      show digitsVal ( "03".data) = 3 from by decide,
      show digitsVal ( "20".data) = 20 from by decide]
  rw [hv]
  norm_num

/-- C5 as amended: for every out_time line with the duration known positive
the parser emits exactly one progress event valued elapsed over duration
times 100, with no clamping applied to the emitted value; with duration 0 an
out_time line emits no event at all, so completion is then signalled only by
a progress=end line. -/
theorem out_time_progress_formula : ∀ (d : ℚ) (idx : Nat) (w : ℚ) (t : List Char),
    containsChar '=' t = false →
    (0 < d →
      progressValues (parse_progress_list d idx w ( "out_time=".data ++ t)) =
        [ffmpeg_time_to_seconds_list t / d * 100]) ∧
    (d = 0 → parse_progress_list d idx w ( "out_time=".data ++ t) = []) := by
  intro d idx w t ht
  constructor
  · exact parse_out_time_progress d idx w ht
  · intro h0
    exact parse_out_time_zero_duration d idx w (by rw [h0]; exact lt_irrefl 0)

/-- Witness for C5: the specification scenario, out_time=00:01:30.50 at
duration 180. -/
theorem out_time_progress_formula_witness :
    containsChar '=' ( "0:01:30.50".data) = false ∧ ((0 : ℚ) < 180) ∧
    progressValues (parse_progress_list 180 0 1
        ( "out_time=".data ++ "0:01:30.50".data)) =
      [ffmpeg_time_to_seconds_list ( "0:01:30.50".data) / 180 * 100] :=
  ⟨by decide, by decide,
   (out_time_progress_formula 180 0 1 ( "0:01:30.50".data) (by decide)).1 (by decide)⟩

/-- C6 counterexample: the claim counts -1:00:30 as malformed (its hour is
not a digit string), so it should yield 0; the source hands the component to
int(), which accepts the sign, and returns -3570. -/
theorem signed_timestamp_counterexample :
    wellFormedTimestamp "-1:00:30" = false ∧
    ffmpeg_time_to_seconds "-1:00:30" = -3570 ∧
    ffmpeg_time_to_seconds "-1:00:30" ≠ 0 := by
  have h : ffmpeg_time_to_seconds "-1:00:30" = -3570 := by
    show ffmpeg_time_to_seconds_list
      (('-' :: "1".data) ++ ':' :: ( "00".data ++ ':' :: "30".data)) = -3570
    rw [ffmpeg_time_signed_hour (by decide) (by decide) (by decide)]
    norm_num [show digitsVal ( "1".data) = 1 from by decide,
      show digitsVal ( "00".data) = 0 from by decide,
      show digitsVal ( "30".data) = 30 from by decide]
  exact ⟨by decide, h, by rw [h]; norm_num⟩

/-- C6 as amended: for digit components the seconds conversion returns
H*3600 + MM*60 + SS plus the fractional part when present; the components go
through Python int(), which also accepts a sign, so a signed hour yields the
signed sum rather than 0; a clock with the wrong number of components raises
ValueError in the source and yields 0, and the function is total. -/
theorem ffmpeg_time_formula : ∀ hs ms ss fs : List Char,
    isDigits hs = true → isDigits ms = true → isDigits ss = true →
    fs.all Char.isDigit = true →
    (ffmpeg_time_to_seconds_list (hs ++ ':' :: (ms ++ ':' :: ss)) =
      (digitsVal hs : ℚ) * 3600 + (digitsVal ms : ℚ) * 60 + (digitsVal ss : ℚ)) ∧
    (ffmpeg_time_to_seconds_list (hs ++ ':' :: (ms ++ ':' :: (ss ++ '.' :: fs))) =
      (digitsVal hs : ℚ) * 3600 + (digitsVal ms : ℚ) * 60 + (digitsVal ss : ℚ)
        + (digitsVal fs : ℚ) / 10 ^ fs.length) ∧
    (ffmpeg_time_to_seconds_list (('-' :: hs) ++ ':' :: (ms ++ ':' :: ss)) =
      -((digitsVal hs : ℚ) * 3600) + (digitsVal ms : ℚ) * 60 + (digitsVal ss : ℚ)) ∧
    (ffmpeg_time_to_seconds_list (hs ++ ':' :: ss) = 0) := by
  intro hs ms ss fs h1 h2 h3 h4
  exact ⟨ffmpeg_time_no_dot h1 h2 h3, ffmpeg_time_dot h1 h2 h3 h4,
    ffmpeg_time_signed_hour h1 h2 h3, ffmpeg_time_two_components h1 h3⟩

/-- Witness for C6: the specification scenario timestamp 0:01:30.50. -/
theorem ffmpeg_time_formula_witness :
    isDigits ( "0".data) = true ∧ isDigits ( "01".data) = true ∧
    isDigits ( "30".data) = true ∧ ( "50".data).all Char.isDigit = true ∧
    ffmpeg_time_to_seconds_list
        ( "0".data ++ ':' :: ( "01".data ++ ':' :: ( "30".data ++ '.' :: "50".data))) =
      (digitsVal ( "0".data) : ℚ) * 3600 + (digitsVal ( "01".data) : ℚ) * 60
        + (digitsVal ( "30".data) : ℚ)
        + (digitsVal ( "50".data) : ℚ) / 10 ^ ( "50".data).length :=
  ⟨by decide, by decide, by decide, by decide,
   (ffmpeg_time_formula ( "0".data) ( "01".data) ( "30".data) ( "50".data)
     (by decide) (by decide) (by decide) (by decide)).2.1⟩

/-- C7: on a nonzero exit code the job emits the Error status, one error
event carrying the buffered error text, and exactly one finished event with
the index and the exit code; and the failure is isolated: every other active
job stays active through the finished delivery, which also admits the next
queued job. -/
theorem nonzero_exit_events :
    ∀ (i : Nat) (code : Int) (buf : String) (s : MainWindowState) (j : Nat),
    code ≠ 0 →
    process_finished_events i code buf =
      [SEvent.statusChanged i "Error", SEvent.errorOccurred i buf,
       SEvent.jobFinished i code] ∧
    (j ∈ s.active_processes → j ≠ i →
      j ∈ (process_finished s i code).active_processes) := by
  intro i code buf s j hc
  constructor
  · simp [process_finished_events, hc]
  · intro hj hne
    rw [process_finished_active]
    exact mem_start_next_of_mem_active _ (mem_removeFirst_of_ne hj hne)

/-- Witness for C7: job 0 fails with exit code 1 while job 1 is also active;
job 1 is still active afterwards. -/
theorem nonzero_exit_events_witness :
    ((1 : Int) ≠ 0) ∧
    process_finished_events 0 1 "boom" =
      [SEvent.statusChanged 0 "Error", SEvent.errorOccurred 0 "boom",
       SEvent.jobFinished 0 1] ∧
    (1 ∈ stop_run_start.active_processes) ∧ ((1 : Nat) ≠ 0) ∧
    1 ∈ (process_finished stop_run_start 0 1).active_processes :=
  ⟨by decide,
   (nonzero_exit_events 0 1 "boom" stop_run_start 1 (by decide)).1,
   by decide, by decide,
   (nonzero_exit_events 0 1 "boom" stop_run_start 1 (by decide)).2
     (by decide) (by decide)⟩

/-- C8: a progress=end line makes the parser emit a final progress event of
exactly 100 and the completion info event, for every duration (0 included)
and every parser state: the parser keeps no state across lines beyond the
start timestamp, which this line never reads. -/
theorem progress_end_emits_completion : ∀ (d : ℚ) (idx : Nat) (w : ℚ),
    parse_progress d idx w "progress=end" =
      [SEvent.progressChanged idx 100, SEvent.infoChanged idx "Conversión completada"] := by
  intro d idx w
  rfl

/-- C9: the duration probe returns the parsed number when the external probe
prints one, and 0 when the probe raises, prints nothing or prints something
non-numeric; it is a total function (every caught exception becomes 0), and
a failed probe is not fatal: with the resulting duration 0 the job still
completes through its progress=end line. -/
theorem get_duration_contract : ∀ (out : String) (d : ℚ) (idx : Nat) (w : ℚ),
    (pyFloat? (pyStrip out.data) = some d → get_duration (some out) = d) ∧
    (pyFloat? (pyStrip out.data) = none → get_duration (some out) = 0) ∧
    get_duration none = 0 ∧
    parse_progress (get_duration none) idx w "progress=end" =
      [SEvent.progressChanged idx 100, SEvent.infoChanged idx "Conversión completada"] := by
  intro out d idx w
  refine ⟨?_, ?_, rfl, rfl⟩
  · intro h
    simp [get_duration, h]
  · intro h
    simp [get_duration, h]

/-- Witness for C9: ffprobe printing 12.5 with a trailing newline. -/
theorem get_duration_contract_witness :
    pyFloat? (pyStrip ( "12.5\n".data)) = some (25 / 2) ∧
    get_duration (some "12.5\n") = 25 / 2 := by
  have h : pyFloat? (pyStrip ( "12.5\n".data)) = some (25 / 2) := by
    show pyFloat? ( "12".data ++ '.' :: "5".data) = some (25 / 2)
    rw [pyFloat?_digits_dot (by decide) (by decide)]
    norm_num [show digitsVal ( "12".data) = 12 from by decide,
      show digitsVal ( "5".data) = 5 from by decide]
  exact ⟨h, (get_duration_contract "12.5\n" (25 / 2) 0 1).1 h⟩

/-- C10: a timestamp with a negative hour component is not treated as
malformed: int() accepts the sign, out_time=-1:00:00 converts to -3600
(nonzero), and at the positive duration 3600 the parser emits a progress
event of -100, a negative percentage. -/
theorem negative_out_time_negative_progress :
    ffmpeg_time_to_seconds "-1:00:00" = -3600 ∧
    ffmpeg_time_to_seconds "-1:00:00" ≠ 0 ∧
    progressValues (parse_progress 3600 0 1 "out_time=-1:00:00") = [-100] ∧
    ((-100 : ℚ) < 0) :=
  ⟨neg_one_hour_value, by rw [neg_one_hour_value]; norm_num,
   neg_progress_value, by norm_num⟩
